import Mathlib

/-!
Verification of the antigravity-proxy request-routing and account-pool engine.

Shallow embedding of the Rust sources:
  * `src/core/src/proxy/rate_limit.rs`      (RateLimitTracker)
  * `src/core/src/proxy/token_manager.rs`   (TokenManager)
  * `src/core/src/proxy/handlers/claude.rs` (thinking-block sanitisation, dispatcher retry loop)
  * `src/core/src/proxy/upstream/client.rs` (UpstreamClient endpoint fallback)
  * `src/core/src/proxy/server.rs`          (route table / auth surface)

Rust strings handled at byte granularity are modelled as `List Char` together
with the UTF-8 byte size of each character; machine integers are `Nat`/`Int`
(the sources use `u64`/`i64` values far from overflow except where noted);
fallible or panicking code returns `Except`/`Option`.  Wall-clock and
monotonic instants are modelled as a single `Nat` second counter passed
explicitly.  Concurrency primitives (DashMap, Mutex, atomics) are modelled as
explicit state threaded through the functions; a DashMap is an association
list keyed by its String key.
-/

namespace AGProxy

/-! ## Rust UTF-8 string model (for `rate_limit.rs` byte slicing) -/

/-- Number of bytes of the UTF-8 encoding of one character. -/
def charBytes (c : Char) : Nat := c.utf8Size

/-- Byte length of a Rust `str` represented as its character list
(`str::len` in Rust counts bytes). -/
def byteLen (s : List Char) : Nat := (s.map charBytes).sum

/-- Rust byte slice `&s[..n]`: returns the characters making up the first
`n` bytes when `n` lies on a character boundary, and `none` (a Rust panic:
"byte index n is not a char boundary") otherwise. -/
def takeBytes : List Char → Nat → Option (List Char)
  | _, 0 => some []
  | [], _ + 1 => none
  | c :: rest, n + 1 =>
    if charBytes c ≤ n + 1 then
      (takeBytes rest (n + 1 - charBytes c)).map (fun t => c :: t)
    else none

/-- Rust `str::parse::<u64>`: an optional leading `+`, then one or more
ASCII digits, value below `2^64`. -/
def parseU64 (s : List Char) : Option Nat :=
  let t : List Char := match s with
    | '+' :: rest => rest
    | _ => s
  if t.isEmpty then none
  else if t.all Char.isDigit then
    let v := t.foldl (fun acc c => acc * 10 + (c.toNat - 48)) 0
    if v < 2 ^ 64 then some v else none
  else none

/-- Rust `str::contains` with a literal needle (substring search). -/
def containsSub : List Char → List Char → Bool
  | [], needle => needle.isEmpty
  | c :: t, needle => needle.isPrefixOf (c :: t) || containsSub t needle

/-! ## RateLimitTracker (`rate_limit.rs`)

The tracker's DashMap `account_id -> (reset_time, reason)` is an association
list; `Instant`s are seconds on the model clock.  Lazy removal of expired
entries (`is_rate_limited`, `cleanup_expired`) only drops entries whose
reset time has passed, which is observationally invisible to every read
operation, so the reads are modelled as pure functions. -/

/-- Tracker state: `account_id -> (reset_time, reason)`. -/
abbrev RLState : Type := List (String × Nat × List Char)

def rlLookup (l : RLState) (id : String) : Option (Nat × List Char) :=
  (l.find? (fun p => p.1 == id)).map (fun p => p.2)

/-- DashMap `insert`: replace the entry for the key or append a new one. -/
def rlInsert (l : RLState) (id : String) (reset : Nat) (reason : List Char) : RLState :=
  if l.any (fun p => p.1 == id) then
    l.map (fun p => if p.1 == id then (id, reset, reason) else p)
  else l ++ [(id, reset, reason)]

/-- `RateLimitTracker::mark_limited`. -/
def markLimited (l : RLState) (now : Nat) (accountId : String) (durationSecs : Nat)
    (reason : List Char) : RLState :=
  rlInsert l accountId (now + durationSecs) reason

/-- `RateLimitTracker::is_rate_limited`. -/
def isRateLimited (l : RLState) (now : Nat) (accountId : String) : Bool :=
  match rlLookup l accountId with
  | some p => decide (now < p.1)
  | none => false

/-- `RateLimitTracker::get_remaining_wait` (saturating subtraction, whole
seconds). -/
def getRemainingWait (l : RLState) (now : Nat) (accountId : String) : Nat :=
  match rlLookup l accountId with
  | some p => p.1 - now
  | none => 0

/-- `RateLimitTracker::get_reset_seconds`. -/
def getResetSeconds (l : RLState) (now : Nat) (accountId : String) : Option Nat :=
  match rlLookup l accountId with
  | some p => if now < p.1 then some (p.1 - now) else none
  | none => none

/-- Default wait of `parse_from_error`: 60 s for 429, 30 s for 503, 10 s for
other 5xx, no-op otherwise (the `match status` at the top of the function). -/
def defaultWait (status : Nat) : Option Nat :=
  if status = 429 then some 60
  else if status = 503 then some 30
  else if 500 ≤ status ∧ status ≤ 599 then some 10
  else none

/-- ASCII whitespace, modelling `\s` of the `regex` crate on the ASCII
bodies the tracker receives. -/
def isWs (c : Char) : Bool :=
  c == ' ' || c == '\t' || c == '\n' || c == '\r' || c == '\x0b' || c == '\x0c'

/-- The literal `"retryDelay"` including the quotes, as in the regex. -/
def camelLit : List Char := "\"retryDelay\"".toList

/-- The literal `"retry_delay"` including the quotes, as in the regex. -/
def snakeLit : List Char := "\"retry_delay\"".toList

/-- The bare literal `retryDelay` used by the `error_body.contains` gate. -/
def camelGate : List Char := "retryDelay".toList

/-- After one of the quoted literals matched, match `\s*:\s*"?(\d+)` and
return the captured maximal digit run. -/
def matchAfterLit (s : List Char) : Option (List Char) :=
  let s1 := s.dropWhile isWs
  match s1 with
  | ':' :: s2 =>
    let s3 := s2.dropWhile isWs
    let s4 : List Char := match s3 with
      | '"' :: r => r
      | _ => s3
    let digits := s4.takeWhile Char.isDigit
    if digits.isEmpty then none else some digits
  | _ => none

/-- Leftmost match of `(?:"retryDelay"|"retry_delay")\s*:\s*"?(\d+)`,
returning the captured digit run: positions are scanned left to right and at
each position the two alternatives (which can never both match) are tried. -/
def findRetryDigits : List Char → Option (List Char)
  | [] => none
  | c :: t =>
    let here : Option (List Char) :=
      if camelLit.isPrefixOf (c :: t) then matchAfterLit ((c :: t).drop camelLit.length)
      else if snakeLit.isPrefixOf (c :: t) then matchAfterLit ((c :: t).drop snakeLit.length)
      else none
    match here with
    | some d => some d
    | none => findRetryDigits t

/-- `RateLimitTracker::parse_retry_delay`: the captured digits go through
`str::parse::<u64>` (`None` on overflow). -/
def parseRetryDelay (body : List Char) : Option Nat :=
  (findRetryDigits body).bind parseU64

/-- The reason string `format!("HTTP {} - {}", status, trunc)`. -/
def reasonChars (status : Nat) (trunc : List Char) : List Char :=
  (s!"HTTP {status} - ").toList ++ trunc

/-- `RateLimitTracker::parse_from_error`.  Returns `Except.error ()` when the
Rust code panics (the byte slice `&error_body[..error_body.len().min(200)]`
hits a non-boundary index), otherwise the updated tracker state. -/
def parseFromError (l : RLState) (now : Nat) (accountId : String) (status : Nat)
    (retryAfterHeader : Option (List Char)) (errorBody : List Char) :
    Except Unit RLState :=
  match defaultWait status with
  | none => .ok l
  | some d =>
    let w1 : Nat := match retryAfterHeader with
      | some h => match parseU64 h with
        | some secs => secs
        | none => d
      | none => d
    let w2 : Nat :=
      if containsSub errorBody camelGate then
        match parseRetryDelay errorBody with
        | some delay => delay
        | none => w1
      else w1
    match takeBytes errorBody (min (byteLen errorBody) 200) with
    | none => .error ()
    | some trunc => .ok (markLimited l now accountId w2 (reasonChars status trunc))

/-- Cooldown stored for `id` after a `parse_from_error` call, in seconds from
`now` (`none` when nothing was stored or the call panicked). -/
def cooldownAfter (l : RLState) (now : Nat) (accountId : String) (status : Nat)
    (retryAfterHeader : Option (List Char)) (errorBody : List Char) : Option Nat :=
  match parseFromError l now accountId status retryAfterHeader errorBody with
  | .ok l2 => (rlLookup l2 accountId).map (fun p => p.1 - now)
  | .error _ => none

/-! ## Anthropic content blocks and inbound thinking sanitisation
(`handlers/claude.rs` lines 28-111)

The block data type lives in `mappers/claude/models.rs`, which is not among
the provided sources; it is modelled from the spec (§3: block variants
`text`, `image`, `tool_use`, `tool_result`, `thinking` with text, optional
signature and optional `cache_control`), with the payloads of the variants the
sanitiser never inspects abstracted to strings. -/

/-- Modelled from the spec: content-block variants of
`mappers/claude/models.rs` (§3 of the spec); `image`, `tool_use` and
`tool_result` payloads are opaque to the sanitiser. -/
inductive ContentBlock
  | text (text : String)
  | image (source : String)
  | toolUse (id : String) (toolName : String) (input : String)
  | toolResult (toolUseId : String) (content : String)
  | thinking (thinking : String) (signature : Option String) (cacheControl : Option String)
deriving DecidableEq

/-- Modelled from the spec: message content is a plain string or a block
sequence. -/
inductive MessageContent
  | str (s : String)
  | arr (blocks : List ContentBlock)
deriving DecidableEq

/-- Modelled from the spec: a message with its role. -/
structure Message where
  role : String
  content : MessageContent
deriving DecidableEq

/-- `MIN_SIGNATURE_LENGTH` in `handlers/claude.rs`. -/
def minSignatureLength : Nat := 10

/-- `has_valid_signature` (`handlers/claude.rs` lines 28-38); Rust
`String::len` counts UTF-8 bytes. -/
def hasValidSignature (b : ContentBlock) : Bool :=
  match b with
  | .thinking thinking signature _ =>
    if thinking.isEmpty && signature.isSome then true
    else match signature with
      | some s => decide (minSignatureLength ≤ s.utf8ByteSize)
      | none => false
  | _ => true

/-- `sanitize_thinking_block`: strip `cache_control` from thinking blocks. -/
def sanitizeThinkingBlock (b : ContentBlock) : ContentBlock :=
  match b with
  | .thinking thinking signature _ => .thinking thinking signature none
  | other => other

/-- One step of the block walk inside `filter_invalid_thinking_blocks`:
valid-signed thinking blocks are sanitised and kept, invalid-signed ones with
non-empty text become text blocks, invalid-signed empty ones are dropped,
everything else passes through. -/
def cleanBlock (b : ContentBlock) : Option ContentBlock :=
  match b with
  | .thinking th sig cc =>
    if hasValidSignature (.thinking th sig cc) then some (sanitizeThinkingBlock (.thinking th sig cc))
    else if th.isEmpty then none
    else some (.text th)
  | other => some other

/-- The rebuilt block list of one message (the `new_blocks` loop). -/
def processBlocks (blocks : List ContentBlock) : List ContentBlock :=
  blocks.filterMap cleanBlock

/-- `if blocks.is_empty() { blocks.push(text "") }`. -/
def fixEmpty (blocks : List ContentBlock) : List ContentBlock :=
  if blocks.isEmpty then [.text ""] else blocks

/-- `filter_invalid_thinking_blocks` (`handlers/claude.rs` lines 55-86), as a
function on the message list it mutates in place. -/
def filterInvalidThinkingBlocks (messages : List Message) : List Message :=
  messages.map (fun m =>
    if m.role == "assistant" || m.role == "model" then
      match m.content with
      | .arr blocks => { m with content := .arr (fixEmpty (processBlocks blocks)) }
      | .str _ => m
    else m)

/-! ## UpstreamClient endpoint fallback (`upstream/client.rs`) -/

/-- Outcome of POSTing to one base URL: a response with its status, or a
connection-level `reqwest` error. -/
inductive EndpointOutcome
  | resp (status : Nat)
  | conn (msg : String)

/-- The two hard-coded base URLs (`BASE_URL_FALLBACKS`). -/
def baseUrlFallbacks : List String :=
  ["https://cloudcode-pa.googleapis.com/v1internal",
   "https://daily-cloudcode-pa.sandbox.googleapis.com/v1internal"]

/-- `reqwest::StatusCode::is_success`: 2xx. -/
def isSuccessStatus (s : Nat) : Bool := decide (200 ≤ s ∧ s < 300)

/-- `UpstreamClient::should_try_next_endpoint`: 429, 408, 404 or any 5xx
(`is_server_error` is 500-599). -/
def shouldTryNextEndpoint (s : Nat) : Bool :=
  s == 429 || s == 408 || s == 404 || decide (500 ≤ s ∧ s ≤ 599)

/-- The `for (idx, base_url)` loop of `call_v1_internal` over the remaining
endpoint indices.  The outcome of each endpoint is the oracle `o`; the result
is `Except.ok (idx, status)` for a returned response and `Except.error msg`
when the loop ends with only errors; the second component lists the endpoint
indices actually called. -/
def callV1Go (o : Nat → EndpointOutcome) :
    List Nat → Option String → Except String (Nat × Nat) × List Nat
  | [], lastErr => (.error (lastErr.getD "All endpoints failed"), [])
  | idx :: rest, lastErr =>
    match o idx with
    | .resp s =>
      if isSuccessStatus s then (.ok (idx, s), [idx])
      else if rest ≠ [] ∧ shouldTryNextEndpoint s then
        let r := callV1Go o rest (some s!"Upstream endpoint {idx} returned {s}")
        (r.1, idx :: r.2)
      else (.ok (idx, s), [idx])
    | .conn msg =>
      -- connection-level error: record it; `continue` when another base URL
      -- remains, `break` (ending with the error) otherwise
      let r := callV1Go o rest (some msg)
      (r.1, idx :: r.2)

/-- `UpstreamClient::call_v1_internal` (fallback skeleton: headers and body
are forwarded unchanged and do not influence control flow). -/
def callV1Internal (o : Nat → EndpointOutcome) : Except String (Nat × Nat) × List Nat :=
  callV1Go o (List.range baseUrlFallbacks.length) none

/-! ## Dispatcher retry loop of `handle_messages` (`handlers/claude.rs`
lines 122-371) and the HTTP auth surface (`server.rs`)

The loop is modelled from the point where a token was obtained: the upstream
outcome of attempt `k` is the oracle `u k`.  Random jitter and the backoff
sleeps do not influence the control flow and are not modelled. -/

/-- Outcome of one dispatcher attempt's upstream call. -/
inductive UOutcome
  | connErr (msg : String)
  | resp (status : Nat) (body : String)

/-- `UOutcome` of a successful attempt (a 2xx response). -/
def isUpstreamSuccess : UOutcome → Bool
  | .resp s _ => isSuccessStatus s
  | .connErr _ => false

/-- `MAX_RETRY_ATTEMPTS.min(pool_size).max(1)`. -/
def maxAttempts (poolSize : Nat) : Nat := (min 3 poolSize).max 1

/-- Result of the dispatcher: upstream calls performed, the
`mark_rate_limited` calls issued to the tracker (the Rust loop contains no
call site of `TokenManager::mark_rate_limited`, so this list is built empty),
whether a success was returned, and the HTTP status and Anthropic error type
sent to the client. -/
structure DispatchResult where
  attemptsUsed : Nat
  marks : List (String × Nat × Option String × String)
  success : Bool
  status : Nat
  errorType : Option String
deriving DecidableEq

/-- The `for attempt in 0..max_attempts` loop, recursing on the remaining
attempts.  A connection error updates only `last_error`; an HTTP error
response updates `last_error` and `last_status` and the loop continues; after
the loop the last status is echoed (429 kept as `rate_limit_error`, other
4xx/5xx as `api_error`, anything else 502). -/
def dispatchGo (u : Nat → UOutcome) : Nat → Nat → Option Nat → DispatchResult
  | 0, attempt, lastStatus =>
    let status : Nat := match lastStatus with
      | some 429 => 429
      | some c => if 400 ≤ c ∧ c < 600 then c else 502
      | none => 502
    let etype : String := if lastStatus == some 429 then "rate_limit_error" else "api_error"
    ⟨attempt, [], false, status, some etype⟩
  | fuel + 1, attempt, lastStatus =>
    match u attempt with
    | .connErr _ => dispatchGo u fuel (attempt + 1) lastStatus
    | .resp s _ =>
      if isSuccessStatus s then ⟨attempt + 1, [], true, 200, none⟩
      else dispatchGo u fuel (attempt + 1) (some s)

/-- The dispatcher retry loop of `handle_messages` for a pool of
`poolSize` accounts. -/
def dispatch (u : Nat → UOutcome) (poolSize : Nat) : DispatchResult :=
  dispatchGo u (maxAttempts poolSize) 0 none

/-- `AuthMode` (`config.rs`). -/
inductive AuthMode
  | off
  | strict
  | allExceptHealth
deriving DecidableEq

/-- `SecurityConfig` (`server.rs`), carried in `AppState` by the router. -/
structure SecurityConfig where
  authMode : AuthMode
  apiKey : String

/-- The request data relevant to the auth claim: the `Authorization` header
value and whether the body deserialises as a `ClaudeRequest`. -/
structure IncomingRequest where
  authorization : Option String
  bodyValid : Bool

/-- `POST /v1/messages` end to end: `ProxyServer::run` registers
`handle_messages` with no auth middleware, and `handle_messages` binds the
header map as `_headers` without reading it, so neither `sec` nor
`req.authorization` is ever consulted; an invalid body yields 400, anything
else enters the dispatcher retry loop. -/
def handleMessages (sec : SecurityConfig) (req : IncomingRequest)
    (u : Nat → UOutcome) (poolSize : Nat) : DispatchResult :=
  if req.bodyValid = false then ⟨0, [], false, 400, some "invalid_request_error"⟩
  else dispatch u poolSize

/-! ## TokenManager (`token_manager.rs`)

The DashMap pool is an association of accounts in iteration order (made
explicit as a list), the atomic round-robin cursor a `Nat`, the mutex-held
`last_used_account` slot an `Option`, the session DashMap an association
list.  `tokio::time::sleep` advances the model clock.  The OAuth refresher
and the project resolver are external HTTP calls, supplied as oracles. -/

/-- `ProxyToken` (`token_manager.rs` lines 13-24); `account_path` is the
back-pointer used only by the disk write-through and is omitted. -/
structure ProxyToken where
  accountId : String
  accessToken : String
  refreshToken : String
  expiresIn : Int
  timestamp : Int
  email : String
  projectId : Option String
  subscriptionTier : Option String
deriving DecidableEq

/-- `SchedulingMode` (`sticky_config.rs`). -/
inductive SchedulingMode
  | performanceFirst
  | balance
  | cacheFirst
deriving DecidableEq

/-- `StickySessionConfig` (`sticky_config.rs`; defaults `Balance`, 30 s). -/
structure StickySessionConfig where
  mode : SchedulingMode
  maxWaitSeconds : Nat
deriving DecidableEq

/-- The mutable state of a `TokenManager`, plus the model clock `now`
(seconds; the code's `Instant::now()` and `chrono::Utc::now().timestamp()`
both read the clock at the suspension-free points modelled here). -/
structure TMState where
  tokens : List ProxyToken
  currentIndex : Nat
  lastUsed : Option (String × Nat)
  sticky : StickySessionConfig
  sessions : List (String × String)
  limits : RLState
  now : Nat

/-- External collaborators of `get_token`:
`crate::oauth::refresh_access_token` (returning the new access token and
`expires_in` on success) and
`crate::proxy::project_resolver::fetch_project_id`. -/
structure Oracles where
  refreshTok : String → Option (String × Int)
  fetchProjectId : String → Option String

/-- Which rule of the selection algorithm produced the candidate (ghost
information recording the branch taken; it does not influence any
behaviour). -/
inductive PickSource
  | sessionBound
  | sessionWait
  | sticky60
  | stickyWalk
  | plainWalk
deriving DecidableEq

/-- `tier_priority` inside the `sort_by` comparator of `get_token`. -/
def tierPriority (tier : Option String) : Nat :=
  match tier with
  | some "ULTRA" => 0
  | some "PRO" => 1
  | some "FREE" => 2
  | _ => 3

/-- The stable `sort_by` on the 4-valued key `tier_priority` (a stable sort
by a key with values 0-3 is the concatenation of the four key buckets in
original order). -/
def sortByTier (l : List ProxyToken) : List ProxyToken :=
  (l.filter (fun t => tierPriority t.subscriptionTier == 0))
    ++ (l.filter (fun t => tierPriority t.subscriptionTier == 1))
    ++ (l.filter (fun t => tierPriority t.subscriptionTier == 2))
    ++ (l.filter (fun t => tierPriority t.subscriptionTier == 3))

/-- Lookup in the `session_accounts` DashMap. -/
def lookupAssoc (l : List (String × String)) (k : String) : Option String :=
  (l.find? (fun p => p.1 == k)).map (fun p => p.2)

/-- `session_accounts.remove(sid)`. -/
def removeAssoc (l : List (String × String)) (k : String) : List (String × String) :=
  l.filter (fun p => p.1 != k)

/-- `session_accounts.insert(sid, id)`. -/
def insertAssoc (l : List (String × String)) (k v : String) : List (String × String) :=
  if l.any (fun p => p.1 == k) then l.map (fun p => if p.1 == k then (k, v) else p)
  else l ++ [(k, v)]

/-- The `for offset in 0..total` walk from `start_idx` over the sorted
snapshot, skipping attempted and rate-limited accounts and returning the
first survivor. -/
def walkPick (snapshot : List ProxyToken) (attempted : List String)
    (limits : RLState) (now : Nat) (startIdx total : Nat) : Option ProxyToken :=
  ((List.range total).map (fun off => (startIdx + off) % total)).findSome?
    (fun idx =>
      match snapshot[idx]? with
      | some c =>
        if attempted.contains c.accountId || isRateLimited limits now c.accountId then none
        else some c
      | none => none)

/-- The candidate picked by one attempt of a `get_token` call.  -/
structure Selected where
  tok : ProxyToken
  source : PickSource

/-- The sticky-session block of one `get_token` attempt (`token_manager.rs`
lines 184-204): on a bound session, wait out a short cooldown under
`CacheFirst` (the sleep advances the clock), drop the binding on a long one,
or pick the bound account when it is ready. -/
def stickyStep (rotate : Bool) (sessionId : Option String)
    (snapshot : List ProxyToken) (attempted : List String)
    (st : TMState) : Option Selected × TMState :=
  match rotate, sessionId with
  | false, some sid =>
    if st.sticky.mode = .performanceFirst then (none, st)
    else
      match lookupAssoc st.sessions sid with
      | some boundId =>
        let resetSec := getRemainingWait st.limits st.now boundId
        if 0 < resetSec then
          if st.sticky.mode = .cacheFirst ∧ resetSec ≤ st.sticky.maxWaitSeconds then
            let stSlept := { st with now := st.now + resetSec }
            match snapshot.find? (fun t => t.accountId == boundId) with
            | some found => (some ⟨found, .sessionWait⟩, stSlept)
            | none => (none, stSlept)
          else (none, { st with sessions := removeAssoc st.sessions sid })
        else
          if attempted.contains boundId then (none, st)
          else
            match snapshot.find? (fun t => t.accountId == boundId) with
            | some found => (some ⟨found, .sessionBound⟩, st)
            | none => (none, st)
      | none => (none, st)
  | _, _ => (none, st)

/-- Candidate selection of one attempt of `get_token` (`token_manager.rs`
lines 180-254): the sticky-session block, the 60 s same-account block with
its round-robin walk, and the plain round-robin walk, with their state
updates (cursor fetch-and-add, `last_used` slot, session binding, the
`CacheFirst` sleep advancing the clock). -/
def selectTarget (quotaGroup : String) (rotate : Bool) (sessionId : Option String)
    (snapshot : List ProxyToken) (total : Nat) (attempted : List String)
    (st : TMState) : Option Selected × TMState :=
  match stickyStep rotate sessionId snapshot attempted st with
  | (some sel, st0) => (some sel, st0)
  | (none, st0) =>
    if rotate = false ∧ quotaGroup ≠ "image_gen" then
      -- Global 60 s lock for non-image requests
      let fromLast : Option ProxyToken :=
        match st0.lastUsed with
        | some (aid, t0) =>
          if st0.now - t0 < 60 ∧ ¬ attempted.contains aid then
            snapshot.find? (fun t => t.accountId == aid)
          else none
        | none => none
      match fromLast with
      | some found => (some ⟨found, .sticky60⟩, st0)
      | none =>
        let startIdx := st0.currentIndex % total
        let st1 := { st0 with currentIndex := st0.currentIndex + 1 }
        match walkPick snapshot attempted st1.limits st1.now startIdx total with
        | some c =>
          let st2 := { st1 with lastUsed := some (c.accountId, st1.now) }
          let newSessions : List (String × String) :=
            match sessionId with
            | some sid =>
              if st2.sticky.mode ≠ .performanceFirst then insertAssoc st2.sessions sid c.accountId
              else st2.sessions
            | none => st2.sessions
          (some ⟨c, .stickyWalk⟩, { st2 with sessions := newSessions })
        | none => (none, st1)
    else
      let startIdx := st0.currentIndex % total
      let st1 := { st0 with currentIndex := st0.currentIndex + 1 }
      match walkPick snapshot attempted st1.limits st1.now startIdx total with
      | some c => (some ⟨c, .plainWalk⟩, st1)
      | none => (none, st1)

/-- Pool-entry mutation after a successful refresh (`tokens.get_mut`). -/
def updateTokens (tokens : List ProxyToken) (id newAccess : String)
    (newExpiresIn newTimestamp : Int) : List ProxyToken :=
  tokens.map (fun t =>
    if t.accountId = id then
      { t with accessToken := newAccess, expiresIn := newExpiresIn, timestamp := newTimestamp }
    else t)

/-- Pool-entry mutation after project-id resolution (`tokens.get_mut`). -/
def setProjectId (tokens : List ProxyToken) (id pid : String) : List ProxyToken :=
  tokens.map (fun t => if t.accountId = id then { t with projectId := some pid } else t)

/-- Minimum reset over the snapshot with default 60
(`filter_map(get_reset_seconds).min().unwrap_or(60)`). -/
def minWaitOf (snapshot : List ProxyToken) (limits : RLState) (now : Nat) : Nat :=
  match snapshot.filterMap (fun t => getResetSeconds limits now t.accountId) with
  | [] => 60
  | x :: xs => xs.foldl Nat.min x

/-- The `for attempt in 0..total` loop of `get_token`, recursing on the
remaining attempts.  On success returns the local (possibly refreshed) token
clone, the resolved project id, and the ghost `PickSource`; disk write-through
(`save_refreshed_token`, `save_project_id`) is best-effort in the code and has
no observable effect here. -/
def getTokenLoop (o : Oracles) (quotaGroup : String) (forceRotate : Bool)
    (sessionId : Option String) (snapshot : List ProxyToken) (total : Nat) :
    Nat → Nat → List String → Option String → TMState →
    Except String (ProxyToken × String × PickSource) × TMState
  | 0, _, _, lastError, st => (.error (lastError.getD "All accounts failed"), st)
  | fuel + 1, attempt, attempted, lastError, st =>
    let rotate := forceRotate || decide (0 < attempt)
    match selectTarget quotaGroup rotate sessionId snapshot total attempted st with
    | (none, st1) =>
      (.error (s!"All accounts are currently limited. Please wait {minWaitOf snapshot st1.limits st1.now}s."), st1)
    | (some sel, st1) =>
      let tok := sel.tok
      if (st1.now : Int) ≥ tok.timestamp - 300 then
        match o.refreshTok tok.refreshToken with
        | some refreshed =>
          let tok2 := { tok with
            accessToken := refreshed.1,
            expiresIn := refreshed.2,
            timestamp := (st1.now : Int) + refreshed.2 }
          let st2 := { st1 with
            tokens := updateTokens st1.tokens tok.accountId refreshed.1 refreshed.2 tok2.timestamp }
          match tok2.projectId with
          | some pid => (.ok (tok2, pid, sel.source), st2)
          | none =>
            match o.fetchProjectId tok2.accessToken with
            | some pid =>
              (.ok (tok2, pid, sel.source),
               { st2 with tokens := setProjectId st2.tokens tok2.accountId pid })
            | none =>
              getTokenLoop o quotaGroup forceRotate sessionId snapshot total
                fuel (attempt + 1) (tok.accountId :: attempted)
                (some "Failed to fetch project_id") st2
        | none =>
          getTokenLoop o quotaGroup forceRotate sessionId snapshot total
            fuel (attempt + 1) (tok.accountId :: attempted)
            (some "Token refresh failed") st1
      else
        match tok.projectId with
        | some pid => (.ok (tok, pid, sel.source), st1)
        | none =>
          match o.fetchProjectId tok.accessToken with
          | some pid =>
            (.ok (tok, pid, sel.source),
             { st1 with tokens := setProjectId st1.tokens tok.accountId pid })
          | none =>
            getTokenLoop o quotaGroup forceRotate sessionId snapshot total
              fuel (attempt + 1) (tok.accountId :: attempted)
              (some "Failed to fetch project_id") st1

/-- `TokenManager::get_token` (`token_manager.rs` lines 151-326).  The
snapshot is the pool's values in iteration order, sorted stably by tier
priority; the loop runs for up to `total` attempts. -/
def getToken (o : Oracles) (quotaGroup : String) (forceRotate : Bool)
    (sessionId : Option String) (st : TMState) :
    Except String (ProxyToken × String × PickSource) × TMState :=
  let total := st.tokens.length
  if total = 0 then (.error "Token pool is empty", st)
  else
    getTokenLoop o quotaGroup forceRotate sessionId (sortByTier st.tokens) total
      total 0 [] none st

/-- `n` successive `get_token` calls threading the state; collects the
account id of each successful selection. -/
def runSelections (o : Oracles) (quotaGroup : String) (forceRotate : Bool)
    (sessionId : Option String) : Nat → TMState → List (Option String) × TMState
  | 0, st => ([], st)
  | n + 1, st =>
    let r := getToken o quotaGroup forceRotate sessionId st
    let id? : Option String := match r.1 with
      | .ok t => some t.1.accountId
      | .error _ => none
    let rest := runSelections o quotaGroup forceRotate sessionId n r.2
    (id? :: rest.1, rest.2)

/-! ## Account loading (`token_manager.rs` lines 50-148)

`load_accounts` iterates the directory entries; the outcome of
`std::fs::read_to_string` plus `serde_json::from_str` for each entry is part
of the input (`parsed = none` models a read or parse failure).  The parsed
JSON is modelled structurally: each field access of `load_single_account`
(`as_str`, `as_i64`, `as_object`, `as_bool`) corresponds to an optional
field. -/

/-- The `token` subtree of an account file as `load_single_account` reads
it. -/
structure TokenJson where
  accessToken : Option String
  refreshToken : Option String
  expiresIn : Option Int
  expiryTimestamp : Option Int
  projectId : Option String

/-- An account file as `load_single_account` reads it (including the
`quota.subscription_tier` enrichment). -/
structure AccountJson where
  disabled : Option Bool
  proxyDisabled : Option Bool
  id : Option String
  email : Option String
  token : Option TokenJson
  quotaTier : Option String

/-- One directory entry: whether its extension is `json`, and the parsed
content (`none`: the read or the JSON parse failed). -/
structure DirEntry where
  isJson : Bool
  parsed : Option AccountJson

/-- `TokenManager::load_single_account` on parsed content: disabled accounts
yield `Ok(None)`, missing required fields an error, otherwise the pool
entry. -/
def loadSingleAccount (a : AccountJson) : Except String (Option ProxyToken) :=
  if a.disabled.getD false then .ok none
  else if a.proxyDisabled.getD false then .ok none
  else
    match a.id with
    | none => .error "Missing id field"
    | some id =>
      match a.email with
      | none => .error "Missing email field"
      | some email =>
        match a.token with
        | none => .error "Missing token field"
        | some tj =>
          match tj.accessToken with
          | none => .error "Missing access_token"
          | some accessToken =>
            match tj.refreshToken with
            | none => .error "Missing refresh_token"
            | some refreshToken =>
              match tj.expiresIn with
              | none => .error "Missing expires_in"
              | some expiresIn =>
                match tj.expiryTimestamp with
                | none => .error "Missing expiry_timestamp"
                | some timestamp =>
                  .ok (some ⟨id, accessToken, refreshToken, expiresIn, timestamp,
                             email, tj.projectId, a.quotaTier⟩)

/-- DashMap `insert` for the pool: replace the entry under the key or append
a new one. -/
def insertPool (pool : List (String × ProxyToken)) (id : String) (t : ProxyToken) :
    List (String × ProxyToken) :=
  if pool.any (fun p => p.1 == id) then
    pool.map (fun p => if p.1 == id then (id, t) else p)
  else pool ++ [(id, t)]

/-- The body of the `for entry in entries` loop of `load_accounts`:
non-`.json` entries are skipped, read/parse failures and load errors are
logged and skipped, disabled accounts are skipped, loaded accounts are
inserted under their id and counted. -/
def loadStep (acc : Nat × List (String × ProxyToken)) (e : DirEntry) :
    Nat × List (String × ProxyToken) :=
  if e.isJson then
    match e.parsed with
    | none => acc
    | some a =>
      match loadSingleAccount a with
      | .ok (some tok) => (acc.1 + 1, insertPool acc.2 tok.accountId tok)
      | .ok none => acc
      | .error _ => acc
  else acc

/-- `TokenManager::load_accounts` over the directory entries: the pool is
cleared, then every entry is processed by `loadStep`; returns the count and
the resulting pool. -/
def loadAccounts (entries : List DirEntry) : Nat × List (String × ProxyToken) :=
  entries.foldl loadStep (0, [])

/-- The pool entry an entry contributes, if any. -/
def loadedToken (e : DirEntry) : Option ProxyToken :=
  if e.isJson then
    e.parsed.bind (fun a =>
      match loadSingleAccount a with
      | .ok (some t) => some t
      | _ => none)
  else none

/-- The account ids of the counted entries, in order, with multiplicity. -/
def loadedIds (entries : List DirEntry) : List String :=
  entries.filterMap (fun e => (loadedToken e).map (fun t => t.accountId))

/-- Lookup in the loaded pool. -/
def lookupPool (pool : List (String × ProxyToken)) (id : String) : Option ProxyToken :=
  (pool.find? (fun p => p.1 == id)).map (fun p => p.2)

/-- Folding the loaded tokens into the pool (the insertion part of the
`load_accounts` loop, separated from the counting). -/
def foldInsert (pool : List (String × ProxyToken)) (toks : List ProxyToken) :
    List (String × ProxyToken) :=
  toks.foldl (fun p t => insertPool p t.accountId t) pool

/-! ## Concrete inputs used by the claim theorems -/

/-- Pool account `A`: healthy token (expiry far in the future) with a
resolved project id. -/
def tokA : ProxyToken := ⟨"A", "atkA", "rtkA", 3600, 1000000, "a@x", some "projA", none⟩

/-- Pool account `B`, as healthy as `A`. -/
def tokB : ProxyToken := ⟨"B", "atkB", "rtkB", 3600, 1000000, "b@x", some "projB", none⟩

/-- Oracles for runs in which neither the refresher nor the project resolver
is ever needed. -/
def oNone : Oracles := ⟨fun _ => none, fun _ => none⟩

/-- State for the C3 counterexample: pool `{A}`, `A` marked rate-limited at
time 0 for 110 s, `last_used = (A, 5)`, clock at 10, policy `Balance`. -/
def stC3 : TMState :=
  ⟨[tokA], 0, some ("A", 5), ⟨.balance, 30⟩, [], markLimited [] 0 "A" 110 [], 10⟩

/-- State for scenario E1: pool `{A, B}`, fresh cursor, no stickiness, no
rate limits. -/
def stC6 : TMState := ⟨[tokA, tokB], 0, none, ⟨.balance, 30⟩, [], [], 0⟩

/-- Upstream oracle: every attempt succeeds with 200. -/
def uOk : Nat → UOutcome := fun _ => .resp 200 "ok"

/-- Upstream oracle: attempt 0 fails with 429, attempt 1 succeeds. -/
def u429 : Nat → UOutcome := fun k => if k = 0 then .resp 429 "quota exhausted" else .resp 200 "ok"

/-- Upstream oracle: attempt 0 fails with a non-transient 400, attempt 1
succeeds. -/
def u400 : Nat → UOutcome := fun k => if k = 0 then .resp 400 "bad request" else .resp 200 "ok"

/-- Endpoint oracle: primary base URL returns 503, secondary 200. -/
def e503 : Nat → EndpointOutcome := fun i => if i = 0 then .resp 503 else .resp 200

/-- Endpoint oracle: both base URLs return 400. -/
def e400 : Nat → EndpointOutcome := fun _ => .resp 400

/-- Endpoint oracle: every base URL succeeds. -/
def eOk : Nat → EndpointOutcome := fun _ => .resp 200

/-- 202-byte body whose 200th byte falls inside the three-byte character
`€` (bytes 199-201): 199 ASCII characters followed by `€`. -/
def c9Body : List Char := List.replicate 199 'a' ++ ['€']

/-- Placeholder token used only as the default of out-of-range `getD`
reads in statements about the round-robin index (never actually read, since
the indices are reduced modulo the pool size). -/
def dummyToken : ProxyToken := ⟨"", "", "", 0, 0, "", none, none⟩

/-! # Theorems -/

/-! ## Shared helper lemmas -/

theorem rlLookup_rlInsert_self (l : RLState) (id : String) (r : Nat) (rs : List Char) :
    rlLookup (rlInsert l id r rs) id = some (r, rs) := by
  unfold rlInsert
  split
  case isTrue h =>
    induction l with
    | nil => simp at h
    | cons p t ih =>
      by_cases hp : p.1 == id
      · simp [rlLookup, List.find?, hp]
      · simp only [List.any_cons, Bool.or_eq_true] at h
        rcases h with h | h
        · exact absurd h (by simpa using hp)
        · simpa [rlLookup, List.find?, hp] using ih h
  case isFalse h =>
    induction l with
    | nil => simp [rlLookup, List.find?]
    | cons p t ih =>
      simp only [List.any_cons, Bool.or_eq_true, not_or] at h
      simp only [List.map_cons] at *
      have hp : (p.1 == id) = false := by
        cases hb : (p.1 == id) <;> simp_all
      simp only [List.cons_append, rlLookup, List.find?, hp] at *
      exact ih h.2

theorem dispatchGo_marks (u : Nat → UOutcome) :
    ∀ fuel attempt lastStatus, (dispatchGo u fuel attempt lastStatus).marks = [] := by
  intro fuel
  induction fuel with
  | zero => intro attempt ls; rfl
  | succ n ih =>
    intro attempt ls
    unfold dispatchGo
    cases u attempt with
    | connErr m => exact ih (attempt + 1) ls
    | resp s b =>
      by_cases hs : isSuccessStatus s = true
      · simp [hs]
      · simp only [Bool.not_eq_true] at hs
        simp [hs]
        exact ih (attempt + 1) (some s)

theorem dispatchGo_all_fail (u : Nat → UOutcome) :
    ∀ fuel attempt lastStatus,
      (∀ k, attempt ≤ k → k < attempt + fuel → isUpstreamSuccess (u k) = false) →
      (dispatchGo u fuel attempt lastStatus).attemptsUsed = attempt + fuel ∧
        (dispatchGo u fuel attempt lastStatus).success = false := by
  intro fuel
  induction fuel with
  | zero => intro attempt ls h; exact ⟨by simp [dispatchGo], rfl⟩
  | succ n ih =>
    intro attempt ls h
    have h0 : isUpstreamSuccess (u attempt) = false := h attempt le_rfl (by omega)
    unfold dispatchGo
    cases hu : u attempt with
    | connErr m =>
      have hrec := ih (attempt + 1) ls (fun k hk1 hk2 => h k (by omega) (by omega))
      exact ⟨by rw [hrec.1]; omega, hrec.2⟩
    | resp s b =>
      rw [hu] at h0
      simp only [isUpstreamSuccess] at h0
      simp only [h0, Bool.false_eq_true, if_false]
      have hrec := ih (attempt + 1) (some s) (fun k hk1 hk2 => h k (by omega) (by omega))
      exact ⟨by rw [hrec.1]; omega, hrec.2⟩

theorem dispatchGo_first_success (u : Nat → UOutcome) :
    ∀ fuel attempt lastStatus j,
      attempt ≤ j → j < attempt + fuel →
      isUpstreamSuccess (u j) = true →
      (∀ i, attempt ≤ i → i < j → isUpstreamSuccess (u i) = false) →
      dispatchGo u fuel attempt lastStatus = ⟨j + 1, [], true, 200, none⟩ := by
  intro fuel
  induction fuel with
  | zero => intro attempt ls j h1 h2 h3 h4; omega
  | succ n ih =>
    intro attempt ls j h1 h2 h3 h4
    unfold dispatchGo
    rcases Nat.eq_or_lt_of_le h1 with heq | hlt
    · subst heq
      cases hu : u attempt with
      | connErr m => rw [hu] at h3; simp [isUpstreamSuccess] at h3
      | resp s b =>
        rw [hu] at h3
        simp only [isUpstreamSuccess] at h3
        simp [h3]
    · have h0 : isUpstreamSuccess (u attempt) = false := h4 attempt le_rfl hlt
      cases hu : u attempt with
      | connErr m =>
        exact ih (attempt + 1) ls j hlt (by omega) h3 (fun i hi1 hi2 => h4 i (by omega) hi2)
      | resp s b =>
        rw [hu] at h0
        simp only [isUpstreamSuccess] at h0
        simp [h0]
        exact ih (attempt + 1) (some s) j hlt (by omega) h3 (fun i hi1 hi2 => h4 i (by omega) hi2)

/-! ## Claim C1 — Retry-After precedence -/

/-- Claim C1, counterexample: with HTTP 429, header `Retry-After: 5` and a
body containing `"retryDelay":"120"`, the stored cooldown is 120 s — the body
override is applied after the header override — not the 5 s the claim
requires. -/
theorem c1_counterexample :
    cooldownAfter [] 0 "A" 429 (some "5".toList) "\"retryDelay\":\"120\"".toList = some 120 ∧
    cooldownAfter [] 0 "A" 429 (some "5".toList) "\"retryDelay\":\"120\"".toList ≠ some 5 := by
  constructor
  · rfl
  · intro h
    rw [show cooldownAfter [] 0 "A" 429 (some "5".toList) "\"retryDelay\":\"120\"".toList = some 120 from rfl] at h
    simp at h

/-- Claim C1 (amended): for a 429, the `Retry-After` header overrides the
60 s default and a `retryDelay` match in the body overrides the header: a
parsing header with no `retryDelay` occurrence in the body gives the header
value; a body whose `retryDelay` pattern captures `d` gives `d` irrespective
of the header; with neither, 60 s.  (The hypothesis `hok` excludes the
byte-slice panic of claim C9.) -/
theorem c1_retry_after_precedence (l : RLState) (now : Nat) (id : String)
    (body : List Char) (hok : (takeBytes body (min (byteLen body) 200)).isSome = true) :
    (∀ h n, parseU64 h = some n → containsSub body camelGate = false →
        cooldownAfter l now id 429 (some h) body = some n)
    ∧ (∀ d hdr, containsSub body camelGate = true → parseRetryDelay body = some d →
        cooldownAfter l now id 429 hdr body = some d)
    ∧ (containsSub body camelGate = false →
        cooldownAfter l now id 429 none body = some 60) := by
  obtain ⟨trunc, htr⟩ := Option.isSome_iff_exists.mp hok
  refine ⟨?_, ?_, ?_⟩
  · intro h n hn hgate
    simp [cooldownAfter, parseFromError, defaultWait, markLimited, hn, hgate, htr,
      rlLookup_rlInsert_self]
  · intro d hdr hgate hd
    simp [cooldownAfter, parseFromError, defaultWait, markLimited, hgate, hd, htr,
      rlLookup_rlInsert_self]
  · intro hgate
    simp [cooldownAfter, parseFromError, defaultWait, markLimited, hgate, htr,
      rlLookup_rlInsert_self]

/-- Witness for the amended C1 at concrete inputs. -/
theorem c1_retry_after_precedence_witness :
    cooldownAfter [] 0 "A" 429 (some "5".toList) "no delay here".toList = some 5 ∧
    cooldownAfter [] 0 "A" 429 (some "5".toList) "\"retryDelay\":\"120\"".toList = some 120 ∧
    cooldownAfter [] 0 "A" 429 none "nothing".toList = some 60 :=
  ⟨(c1_retry_after_precedence [] 0 "A" "no delay here".toList (by decide)).1
      "5".toList 5 (by decide) (by decide),
   (c1_retry_after_precedence [] 0 "A" "\"retryDelay\":\"120\"".toList (by decide)).2.1
      120 (some "5".toList) (by decide) (by decide),
   (c1_retry_after_precedence [] 0 "A" "nothing".toList (by decide)).2.2 (by decide)⟩

/-! ## Claim C9 — reason truncation panics on a char boundary -/

set_option maxRecDepth 20000 in
/-- Claim C9: `parse_from_error` is not total — at status 429 with a
202-byte body whose 200th byte lies inside the multi-byte character `€`, the
byte slice `&error_body[..error_body.len().min(200)]` panics instead of
storing a truncated reason. -/
theorem c9_truncation_panics :
    parseFromError [] 0 "A" 429 none c9Body = .error () ∧ 200 < byteLen c9Body := by
  constructor
  · rfl
  · decide

/-! ## Claim C2 — the auth gate does not exist -/

/-- Claim C2: `ProxyServer::run` installs no auth middleware and
`handle_messages` never reads the `Authorization` header, so the response is
independent of the security configuration and of the header, and under
`strict` mode a request with no `Authorization` at all is forwarded upstream
and answered 200, never 401. -/
theorem c2_auth_gate_missing :
    (∀ (sec sec2 : SecurityConfig) (req : IncomingRequest) (u : Nat → UOutcome) (p : Nat),
        handleMessages sec req u p = handleMessages sec2 ⟨none, req.bodyValid⟩ u p)
    ∧ handleMessages ⟨.strict, "sk-secret"⟩ ⟨none, true⟩ uOk 1 = ⟨1, [], true, 200, none⟩
    ∧ (200 : Nat) ≠ 401 := by
  refine ⟨fun sec sec2 req u p => rfl, by decide, by decide⟩

/-! ## Claim C4 — the dispatcher never calls mark_rate_limited -/

/-- Claim C4: the retry loop of `handle_messages` contains no call to
`TokenManager::mark_rate_limited`, so the tracker receives no mark from any
failed attempt; concretely, an attempt failing with HTTP 429 is followed by a
second attempt with the tracker still untouched. -/
theorem c4_no_mark_rate_limited :
    (∀ (u : Nat → UOutcome) (p : Nat), (dispatch u p).marks = [])
    ∧ dispatch u429 2 = ⟨2, [], true, 200, none⟩ := by
  refine ⟨fun u p => dispatchGo_marks u (maxAttempts p) 0 none, ?_⟩
  rfl

/-! ## Claim C5 — non-transient 4xx are retried, not returned -/

/-- Claim C5, counterexample: with the upstream returning 400 on attempt 0
and 200 on attempt 1 (pool of two accounts), the dispatcher performs a second
attempt after the non-transient 400 and does not return the 400 response. -/
theorem c5_counterexample :
    (dispatch u400 2).attemptsUsed = 2 ∧ (dispatch u400 2).status ≠ 400 ∧
    isUpstreamSuccess (u400 0) = false := by
  refine ⟨rfl, ?_, rfl⟩
  intro h
  rw [show (dispatch u400 2).status = 200 from rfl] at h
  simp at h

/-- Claim C5 (amended): every non-success upstream outcome — connection
error or any non-2xx status, including non-transient 4xx such as 400, 401,
403 — causes the dispatcher to continue to the next attempt while attempts
remain: when the first success is at attempt `j`, exactly `j + 1` upstream
calls are made; when no attempt succeeds, all `maxAttempts` are used and the
last status is echoed to the client. -/
theorem c5_retry_all_statuses (u : Nat → UOutcome) (p : Nat) :
    ((∀ k, k < maxAttempts p → isUpstreamSuccess (u k) = false) →
        (dispatch u p).attemptsUsed = maxAttempts p ∧ (dispatch u p).success = false)
    ∧ (∀ j, j < maxAttempts p → isUpstreamSuccess (u j) = true →
        (∀ i, i < j → isUpstreamSuccess (u i) = false) →
        (dispatch u p).attemptsUsed = j + 1 ∧ (dispatch u p).success = true) := by
  constructor
  · intro h
    have := dispatchGo_all_fail u (maxAttempts p) 0 none
      (fun k hk1 hk2 => h k (by omega))
    exact ⟨by rw [show dispatch u p = dispatchGo u (maxAttempts p) 0 none from rfl, this.1]; omega,
           by rw [show dispatch u p = dispatchGo u (maxAttempts p) 0 none from rfl, this.2]⟩
  · intro j hj hsucc hprev
    have := dispatchGo_first_success u (maxAttempts p) 0 none j (Nat.zero_le j) (by omega)
      hsucc (fun i hi1 hi2 => hprev i hi2)
    rw [show dispatch u p = dispatchGo u (maxAttempts p) 0 none from rfl, this]
    exact ⟨rfl, rfl⟩

/-- Witness for the amended C5: the 400-then-200 run makes exactly two
upstream calls and ends in success. -/
theorem c5_retry_all_statuses_witness :
    (dispatch u400 2).attemptsUsed = 1 + 1 ∧ (dispatch u400 2).success = true :=
  (c5_retry_all_statuses u400 2).2 1 (by decide) (by decide)
    (fun i hi => by
      interval_cases i
      decide)

/-! ## Claim C7 — endpoint fallback rule of call_v1_internal -/

/-- Claim C7: a response with status in {408, 404, 429} ∪ 5xx advances to the
second base URL when one remains, any other non-success response is returned
as-is without fallback, connection errors always advance, and the result is
the first success or the last response/error; concretely 503-then-200
succeeds on the second endpoint and 400 is propagated immediately. -/
theorem c7_fallback_rule (o : Nat → EndpointOutcome) (s : Nat) :
    (o 0 = .resp s → isSuccessStatus s = true → callV1Internal o = (.ok (0, s), [0]))
    ∧ (o 0 = .resp s → isSuccessStatus s = false → shouldTryNextEndpoint s = false →
        callV1Internal o = (.ok (0, s), [0]))
    ∧ (o 0 = .resp s → isSuccessStatus s = false → shouldTryNextEndpoint s = true →
        1 ∈ (callV1Internal o).2 ∧
        (∀ s2, o 1 = .resp s2 → (callV1Internal o).1 = .ok (1, s2)) ∧
        (∀ m, o 1 = .conn m → (callV1Internal o).1 = .error m))
    ∧ (∀ m0, o 0 = .conn m0 →
        1 ∈ (callV1Internal o).2 ∧
        (∀ s2, o 1 = .resp s2 → (callV1Internal o).1 = .ok (1, s2)) ∧
        (∀ m, o 1 = .conn m → (callV1Internal o).1 = .error m))
    ∧ callV1Internal e503 = (.ok (1, 200), [0, 1])
    ∧ callV1Internal e400 = (.ok (0, 400), [0]) := by
  have hrange : List.range baseUrlFallbacks.length = [0, 1] := rfl
  refine ⟨?_, ?_, ?_, ?_, rfl, rfl⟩
  · intro h0 hs
    simp [callV1Internal, hrange, callV1Go, h0, hs]
  · intro h0 hs htry
    simp [callV1Internal, hrange, callV1Go, h0, hs, htry]
  · intro h0 hs htry
    refine ⟨?_, ?_, ?_⟩
    · cases h1 : o 1 with
      | resp s2 =>
        by_cases hs2 : isSuccessStatus s2 = true
        · simp [callV1Internal, hrange, callV1Go, h0, hs, htry, h1, hs2]
        · simp only [Bool.not_eq_true] at hs2
          simp [callV1Internal, hrange, callV1Go, h0, hs, htry, h1, hs2]
      | conn m => simp [callV1Internal, hrange, callV1Go, h0, hs, htry, h1]
    · intro s2 h1
      by_cases hs2 : isSuccessStatus s2 = true
      · simp [callV1Internal, hrange, callV1Go, h0, hs, htry, h1, hs2]
      · simp only [Bool.not_eq_true] at hs2
        simp [callV1Internal, hrange, callV1Go, h0, hs, htry, h1, hs2]
    · intro m h1
      simp [callV1Internal, hrange, callV1Go, h0, hs, htry, h1]
  · intro m0 h0
    refine ⟨?_, ?_, ?_⟩
    · cases h1 : o 1 with
      | resp s2 =>
        by_cases hs2 : isSuccessStatus s2 = true
        · simp [callV1Internal, hrange, callV1Go, h0, h1, hs2]
        · simp only [Bool.not_eq_true] at hs2
          simp [callV1Internal, hrange, callV1Go, h0, h1, hs2]
      | conn m => simp [callV1Internal, hrange, callV1Go, h0, h1]
    · intro s2 h1
      by_cases hs2 : isSuccessStatus s2 = true
      · simp [callV1Internal, hrange, callV1Go, h0, h1, hs2]
      · simp only [Bool.not_eq_true] at hs2
        simp [callV1Internal, hrange, callV1Go, h0, h1, hs2]
    · intro m h1
      simp [callV1Internal, hrange, callV1Go, h0, h1]

/-- Witness for C7: a first-endpoint success is returned at once. -/
theorem c7_fallback_rule_witness : callV1Internal eOk = (.ok (0, 200), [0]) :=
  (c7_fallback_rule eOk 200).1 rfl rfl

/-! ## Claim C8 — idempotence of the inbound thinking sanitisation -/

theorem cleanBlock_stable : ∀ b b', cleanBlock b = some b' → cleanBlock b' = some b' := by
  intro b b' h
  cases b with
  | text t => simp [cleanBlock] at h; simp [← h, cleanBlock]
  | image s => simp [cleanBlock] at h; simp [← h, cleanBlock]
  | toolUse i nm inp => simp [cleanBlock] at h; simp [← h, cleanBlock]
  | toolResult i c => simp [cleanBlock] at h; simp [← h, cleanBlock]
  | thinking th sig cc =>
    by_cases hv : hasValidSignature (ContentBlock.thinking th sig cc) = true
    · simp [cleanBlock, hv, sanitizeThinkingBlock] at h
      have hv2 : hasValidSignature (ContentBlock.thinking th sig none) = true := by
        simp only [hasValidSignature] at hv ⊢
        exact hv
      simp [← h, cleanBlock, hv2, sanitizeThinkingBlock]
    · simp only [Bool.not_eq_true] at hv
      by_cases he : th.isEmpty = true
      · simp [cleanBlock, hv, he] at h
      · simp only [Bool.not_eq_true] at he
        simp [cleanBlock, hv, he] at h
        simp [← h, cleanBlock]

theorem filterMap_cleanBlock_stable :
    ∀ (l : List ContentBlock), (∀ b ∈ l, cleanBlock b = some b) →
      l.filterMap cleanBlock = l := by
  intro l hl
  induction l with
  | nil => rfl
  | cons a t ih =>
    rw [List.filterMap_cons, hl a (by simp)]
    rw [ih (fun b hb => hl b (by simp [hb]))]

theorem processBlocks_idem (bs : List ContentBlock) :
    processBlocks (processBlocks bs) = processBlocks bs := by
  unfold processBlocks
  apply filterMap_cleanBlock_stable
  intro b hb
  rw [List.mem_filterMap] at hb
  obtain ⟨a, _, ha⟩ := hb
  exact cleanBlock_stable a b ha

theorem fixEmpty_processBlocks_idem (bs : List ContentBlock) :
    fixEmpty (processBlocks (fixEmpty (processBlocks bs))) = fixEmpty (processBlocks bs) := by
  by_cases h : processBlocks bs = []
  · rw [h]; rfl
  · have h1 : fixEmpty (processBlocks bs) = processBlocks bs := by
      simp [fixEmpty, List.isEmpty_iff, h]
    rw [h1, processBlocks_idem, h1]

/-- Claim C8: the inbound thinking cleanup `filter_invalid_thinking_blocks`
is idempotent — applying it twice yields the same message list as applying it
once. -/
theorem c8_sanitisation_idempotent (messages : List Message) :
    filterInvalidThinkingBlocks (filterInvalidThinkingBlocks messages) =
      filterInvalidThinkingBlocks messages := by
  unfold filterInvalidThinkingBlocks
  rw [List.map_map]
  apply List.map_congr_left
  intro m _
  simp only [Function.comp_apply]
  by_cases hrole : (m.role == "assistant" || m.role == "model") = true
  · cases hc : m.content with
    | str s => simp [hrole, hc]
    | arr blocks =>
      simp only [hrole, hc, if_true]
      rw [fixEmpty_processBlocks_idem]
  · simp only [Bool.not_eq_true] at hrole
    simp [hrole]

/-! ## Claim C10 — load_accounts count versus pool size -/

theorem loadStep_char (acc : Nat × List (String × ProxyToken)) (e : DirEntry) :
    loadStep acc e = match loadedToken e with
      | some t => (acc.1 + 1, insertPool acc.2 t.accountId t)
      | none => acc := by
  unfold loadStep loadedToken
  cases hj : e.isJson
  · simp
  · simp only [if_true]
    cases hp : e.parsed with
    | none => simp
    | some a =>
      simp only [Option.bind_some]
      cases hl : loadSingleAccount a with
      | ok o => cases o <;> simp [hl]
      | error s => simp [hl]

theorem loadAccounts_fold (entries : List DirEntry) :
    ∀ acc : Nat × List (String × ProxyToken),
      entries.foldl loadStep acc =
        (acc.1 + (entries.filterMap loadedToken).length,
         foldInsert acc.2 (entries.filterMap loadedToken)) := by
  induction entries with
  | nil => intro acc; simp [foldInsert]
  | cons e rest ih =>
    intro acc
    rw [List.foldl_cons, List.filterMap_cons, loadStep_char]
    cases hl : loadedToken e with
    | none => simpa using ih acc
    | some t =>
      simp only
      rw [ih]
      refine Prod.ext ?_ rfl
      simp
      omega

theorem anyKey_iff (pool : List (String × ProxyToken)) (id : String) :
    (pool.any (fun p => p.1 == id) = true) ↔ id ∈ pool.map Prod.fst := by
  simp [List.any_eq_true, List.mem_map, beq_iff_eq]

theorem insertPool_keys (pool : List (String × ProxyToken)) (id : String) (t : ProxyToken) :
    (insertPool pool id t).map Prod.fst =
      if pool.any (fun p => p.1 == id) = true then pool.map Prod.fst
      else pool.map Prod.fst ++ [id] := by
  unfold insertPool
  by_cases h : pool.any (fun p => p.1 == id) = true
  · simp only [h, if_true]
    rw [List.map_map]
    apply List.map_congr_left
    intro p _
    simp only [Function.comp_apply]
    by_cases hb : (p.1 == id) = true
    · simp only [hb, if_true]
      exact (eq_of_beq hb).symm
    · simp [hb]
  · simp only [Bool.not_eq_true] at h
    simp [h]

theorem insertPool_length (pool : List (String × ProxyToken)) (id : String) (t : ProxyToken) :
    (insertPool pool id t).length =
      if id ∈ pool.map Prod.fst then pool.length else pool.length + 1 := by
  unfold insertPool
  by_cases h : pool.any (fun p => p.1 == id) = true
  · simp [h, (anyKey_iff pool id).mp h]
  · have hm : id ∉ pool.map Prod.fst := fun hmem => h ((anyKey_iff pool id).mpr hmem)
    simp only [Bool.not_eq_true] at h
    simp [h, hm]

theorem insertPool_nodup (pool : List (String × ProxyToken)) (id : String) (t : ProxyToken)
    (h : (pool.map Prod.fst).Nodup) : ((insertPool pool id t).map Prod.fst).Nodup := by
  rw [insertPool_keys]
  by_cases hc : pool.any (fun p => p.1 == id) = true
  · simp [hc, h]
  · have hm : id ∉ pool.map Prod.fst := fun hmem => hc ((anyKey_iff pool id).mpr hmem)
    simp only [Bool.not_eq_true] at hc
    simp [hc, List.nodup_append, h, hm]

theorem insertPool_mem_keys (pool : List (String × ProxyToken)) (id : String)
    (t : ProxyToken) (k : String) :
    (k ∈ (insertPool pool id t).map Prod.fst) ↔ (k ∈ pool.map Prod.fst ∨ k = id) := by
  rw [insertPool_keys]
  by_cases hc : pool.any (fun p => p.1 == id) = true
  · have hmem := (anyKey_iff pool id).mp hc
    simp only [hc, if_true]
    constructor
    · exact fun h => Or.inl h
    · rintro (h | rfl)
      · exact h
      · exact hmem
  · simp only [Bool.not_eq_true] at hc
    simp [hc]

theorem find?_keyReplace (pool : List (String × ProxyToken)) (id k : String)
    (t : ProxyToken) (hk : k ≠ id) :
    (pool.map (fun p => if p.1 == id then (id, t) else p)).find? (fun p => p.1 == k)
      = pool.find? (fun p => p.1 == k) := by
  induction pool with
  | nil => rfl
  | cons p rest ih =>
    by_cases hb : (p.1 == id) = true
    · have hp : p.1 = id := eq_of_beq hb
      have h1 : ((id : String) == k) = false := beq_eq_false_iff_ne.mpr (Ne.symm hk)
      rw [List.map_cons, if_pos hb]
      simp only [List.find?_cons, hp, h1]
      exact ih
    · have hne : (p.1 == id) = false := by
        cases hx : (p.1 == id)
        · rfl
        · exact absurd hx hb
      rw [List.map_cons, if_neg (by simp [hne])]
      simp only [List.find?_cons]
      cases hpk : (p.1 == k) with
      | true => simp only [hpk]
      | false =>
        simp only [hpk]
        exact ih

theorem insertPool_lookup_self (pool : List (String × ProxyToken)) (id : String)
    (t : ProxyToken) : lookupPool (insertPool pool id t) id = some t := by
  unfold insertPool lookupPool
  by_cases h : pool.any (fun p => p.1 == id) = true
  · simp only [h, if_true]
    induction pool with
    | nil => simp at h
    | cons p rest ih =>
      by_cases hb : (p.1 == id) = true
      · simp [List.find?, hb]
      · simp only [List.any_cons, Bool.or_eq_true] at h
        rcases h with h | h
        · exact absurd h hb
        · simp only [Bool.not_eq_true] at hb
          simpa [List.find?, hb] using ih h
  · rw [if_neg h]
    have hnone : pool.find? (fun p => p.1 == id) = none := by
      rw [List.find?_eq_none]
      intro p hp hbp
      exact h (List.any_eq_true.mpr ⟨p, hp, hbp⟩)
    rw [List.find?_append, hnone]
    simp [List.find?]

theorem insertPool_lookup_other (pool : List (String × ProxyToken)) (id k : String)
    (t : ProxyToken) (hk : k ≠ id) :
    lookupPool (insertPool pool id t) k = lookupPool pool k := by
  unfold insertPool lookupPool
  by_cases h : pool.any (fun p => p.1 == id) = true
  · simp only [h, if_true]
    rw [find?_keyReplace pool id k t hk]
  · rw [if_neg h]
    rw [List.find?_append]
    have h1 : ((id : String) == k) = false := beq_eq_false_iff_ne.mpr (Ne.symm hk)
    cases hf : pool.find? (fun p => p.1 == k) <;> simp [hf, List.find?, h1]

theorem foldInsert_nodup :
    ∀ (toks : List ProxyToken) (pool : List (String × ProxyToken)),
      (pool.map Prod.fst).Nodup → ((foldInsert pool toks).map Prod.fst).Nodup := by
  intro toks
  induction toks with
  | nil => intro pool h; exact h
  | cons t rest ih =>
    intro pool h
    exact ih (insertPool pool t.accountId t) (insertPool_nodup pool t.accountId t h)

theorem foldInsert_mem :
    ∀ (toks : List ProxyToken) (pool : List (String × ProxyToken)) (k : String),
      k ∈ (foldInsert pool toks).map Prod.fst ↔
        (k ∈ pool.map Prod.fst ∨ k ∈ toks.map (fun t => t.accountId)) := by
  intro toks
  induction toks with
  | nil => intro pool k; simp [foldInsert]
  | cons t rest ih =>
    intro pool k
    show k ∈ (foldInsert (insertPool pool t.accountId t) rest).map Prod.fst ↔ _
    rw [ih, insertPool_mem_keys]
    simp [or_assoc]

theorem foldInsert_lookup :
    ∀ (toks : List ProxyToken) (pool : List (String × ProxyToken)) (k : String),
      lookupPool (foldInsert pool toks) k =
        match toks.reverse.find? (fun t => t.accountId == k) with
        | some r => some r
        | none => lookupPool pool k := by
  intro toks
  induction toks with
  | nil => intro pool k; simp [foldInsert]
  | cons t rest ih =>
    intro pool k
    show lookupPool (foldInsert (insertPool pool t.accountId t) rest) k = _
    rw [ih]
    simp only [List.reverse_cons, List.find?_append]
    cases hf : rest.reverse.find? (fun t => t.accountId == k) with
    | some r => simp
    | none =>
      simp only [Option.none_orElse]
      by_cases hb : (t.accountId == k) = true
      · have hkt : k = t.accountId := (eq_of_beq hb).symm
        simp [List.find?, hb, hkt, insertPool_lookup_self]
      · simp only [Bool.not_eq_true] at hb
        have hk : k ≠ t.accountId := fun he => by simp [he] at hb
        simp [List.find?, hb, insertPool_lookup_other pool t.accountId k t hk]

theorem dedupLength_iff (l : List String) : l.dedup.length = l.length ↔ l.Nodup := by
  constructor
  · intro h
    have heq := List.Sublist.eq_of_length (List.dedup_sublist l) h
    rw [← heq]
    exact List.nodup_dedup l
  · intro h
    rw [h.dedup]

/-- Claim C10: `load_accounts` returns the number of enabled fully-parsed
`.json` entries processed while the pool is keyed by account id: the pool
size is the number of distinct loaded ids, it equals the returned count
exactly when the loaded ids are pairwise distinct, and looking up an id in
the pool yields the token of the last counted entry carrying that id (a
repeated id replaces the earlier entry yet still increments the count). -/
theorem c10_load_accounts (entries : List DirEntry) :
    (loadAccounts entries).1 = (loadedIds entries).length
    ∧ (loadAccounts entries).2.length = (loadedIds entries).dedup.length
    ∧ ((loadAccounts entries).2.length = (loadAccounts entries).1 ↔ (loadedIds entries).Nodup)
    ∧ ∀ id, lookupPool (loadAccounts entries).2 id =
        (entries.filterMap loadedToken).reverse.find? (fun t => t.accountId == id) := by
  have h1 : loadAccounts entries =
      ((entries.filterMap loadedToken).length,
       foldInsert [] (entries.filterMap loadedToken)) := by
    rw [loadAccounts, loadAccounts_fold entries (0, [])]
    simp [foldInsert]
  have hids : loadedIds entries = (entries.filterMap loadedToken).map (fun t => t.accountId) := by
    unfold loadedIds
    rw [List.map_filterMap]
  have hlen : (foldInsert [] (entries.filterMap loadedToken)).length =
      ((entries.filterMap loadedToken).map (fun t => t.accountId)).dedup.length := by
    have hnd := foldInsert_nodup (entries.filterMap loadedToken) [] (by simp)
    have hfin : ((foldInsert [] (entries.filterMap loadedToken)).map Prod.fst).toFinset
        = ((entries.filterMap loadedToken).map (fun t => t.accountId)).toFinset := by
      ext k
      simp only [List.mem_toFinset]
      rw [foldInsert_mem]
      simp
    calc (foldInsert [] (entries.filterMap loadedToken)).length
        = ((foldInsert [] (entries.filterMap loadedToken)).map Prod.fst).length :=
          (List.length_map _ _).symm
      _ = ((foldInsert [] (entries.filterMap loadedToken)).map Prod.fst).toFinset.card :=
          (List.toFinset_card_of_nodup hnd).symm
      _ = ((entries.filterMap loadedToken).map (fun t => t.accountId)).toFinset.card := by
          rw [hfin]
      _ = ((entries.filterMap loadedToken).map (fun t => t.accountId)).dedup.length :=
          List.card_toFinset _
  refine ⟨?_, ?_, ?_, ?_⟩
  · rw [h1, hids]
    simp
  · rw [h1, hids]
    exact hlen
  · rw [h1, hids]
    simp only
    rw [hlen]
    have : ((entries.filterMap loadedToken).map (fun t => t.accountId)).length
        = (entries.filterMap loadedToken).length := List.length_map _ _
    rw [← this]
    exact dedupLength_iff _
  · intro id
    rw [h1]
    simp only
    rw [foldInsert_lookup]
    cases (entries.filterMap loadedToken).reverse.find? (fun t => t.accountId == id) with
    | some r => rfl
    | none => rfl

/-! ## Claim C3 — rate-limit exclusion in get_token -/

theorem walkPick_not_limited (snapshot : List ProxyToken) (attempted : List String)
    (limits : RLState) (now : Nat) (startIdx total : Nat) (c : ProxyToken)
    (h : walkPick snapshot attempted limits now startIdx total = some c) :
    isRateLimited limits now c.accountId = false ∧ c ∈ snapshot := by
  unfold walkPick at h
  obtain ⟨l1, idx, l2, _, hidx, _⟩ := List.findSome?_eq_some_iff.mp h
  cases hget : snapshot[idx]? with
  | none => rw [hget] at hidx; exact absurd hidx (by simp)
  | some c2 =>
    rw [hget] at hidx
    dsimp only at hidx
    by_cases hc : (attempted.contains c2.accountId || isRateLimited limits now c2.accountId) = true
    · rw [if_pos hc] at hidx
      exact absurd hidx (by simp)
    · rw [if_neg hc] at hidx
      cases hidx
      simp only [Bool.or_eq_true, not_or, Bool.not_eq_true] at hc
      exact ⟨hc.2, List.getElem?_mem hget⟩

theorem stickyStep_state (rotate : Bool) (sessionId : Option String)
    (snapshot : List ProxyToken) (attempted : List String) (st : TMState) :
    (stickyStep rotate sessionId snapshot attempted st).2.limits = st.limits ∧
    st.now ≤ (stickyStep rotate sessionId snapshot attempted st).2.now ∧
    (stickyStep rotate sessionId snapshot attempted st).2.currentIndex = st.currentIndex ∧
    (stickyStep rotate sessionId snapshot attempted st).2.tokens = st.tokens ∧
    (stickyStep rotate sessionId snapshot attempted st).2.sticky = st.sticky := by
  unfold stickyStep
  cases rotate with
  | true => exact ⟨rfl, le_rfl, rfl, rfl, rfl⟩
  | false =>
    cases sessionId with
    | none => exact ⟨rfl, le_rfl, rfl, rfl, rfl⟩
    | some sid =>
      dsimp only
      by_cases hpf : st.sticky.mode = .performanceFirst
      · rw [if_pos hpf]; exact ⟨rfl, le_rfl, rfl, rfl, rfl⟩
      · rw [if_neg hpf]
        cases lookupAssoc st.sessions sid with
        | none => exact ⟨rfl, le_rfl, rfl, rfl, rfl⟩
        | some boundId =>
          simp only
          by_cases h0 : 0 < getRemainingWait st.limits st.now boundId
          · rw [if_pos h0]
            by_cases hcf : st.sticky.mode = .cacheFirst ∧
                getRemainingWait st.limits st.now boundId ≤ st.sticky.maxWaitSeconds
            · rw [if_pos hcf]
              cases snapshot.find? (fun t => t.accountId == boundId) with
              | some found => exact ⟨rfl, by simp, rfl, rfl, rfl⟩
              | none => exact ⟨rfl, by simp, rfl, rfl, rfl⟩
            · rw [if_neg hcf]; exact ⟨rfl, le_rfl, rfl, rfl, rfl⟩
          · rw [if_neg h0]
            by_cases hat : attempted.contains boundId = true
            · rw [if_pos hat]; exact ⟨rfl, le_rfl, rfl, rfl, rfl⟩
            · rw [if_neg hat]
              cases snapshot.find? (fun t => t.accountId == boundId) with
              | some found => exact ⟨rfl, le_rfl, rfl, rfl, rfl⟩
              | none => exact ⟨rfl, le_rfl, rfl, rfl, rfl⟩

theorem stickyStep_some_not_limited (rotate : Bool) (sessionId : Option String)
    (snapshot : List ProxyToken) (attempted : List String) (st : TMState)
    (sel : Selected) (st1 : TMState)
    (h : stickyStep rotate sessionId snapshot attempted st = (some sel, st1)) :
    isRateLimited st1.limits st1.now sel.tok.accountId = false := by
  unfold stickyStep at h
  cases rotate with
  | true => exact absurd h (by simp)
  | false =>
    cases sessionId with
    | none => exact absurd h (by simp)
    | some sid =>
      dsimp only at h
      by_cases hpf : st.sticky.mode = .performanceFirst
      · rw [if_pos hpf] at h; exact absurd h (by simp)
      · rw [if_neg hpf] at h
        cases hlk : lookupAssoc st.sessions sid with
        | none => rw [hlk] at h; exact absurd h (by simp)
        | some boundId =>
          rw [hlk] at h
          simp only at h
          by_cases h0 : 0 < getRemainingWait st.limits st.now boundId
          · rw [if_pos h0] at h
            by_cases hcf : st.sticky.mode = .cacheFirst ∧
                getRemainingWait st.limits st.now boundId ≤ st.sticky.maxWaitSeconds
            · rw [if_pos hcf] at h
              cases hfind : snapshot.find? (fun t => t.accountId == boundId) with
              | none => rw [hfind] at h; exact absurd h (by simp)
              | some found =>
                rw [hfind] at h
                simp only [Prod.mk.injEq, Option.some.injEq] at h
                obtain ⟨hsel, hst⟩ := h
                subst hst
                subst hsel
                have hp := List.find?_some hfind
                have hfound : found.accountId = boundId := eq_of_beq hp
                dsimp only
                rw [hfound]
                unfold isRateLimited
                unfold getRemainingWait at h0 ⊢
                cases hrl : rlLookup st.limits boundId with
                | none => simp
                | some p =>
                  rw [hrl] at h0
                  dsimp only at h0 ⊢
                  simp only [decide_eq_false_iff_not, not_lt]
                  omega
            · rw [if_neg hcf] at h; exact absurd h (by simp)
          · rw [if_neg h0] at h
            by_cases hat : attempted.contains boundId = true
            · rw [if_pos hat] at h; exact absurd h (by simp)
            · rw [if_neg hat] at h
              cases hfind : snapshot.find? (fun t => t.accountId == boundId) with
              | none => rw [hfind] at h; exact absurd h (by simp)
              | some found =>
                rw [hfind] at h
                simp only [Prod.mk.injEq, Option.some.injEq] at h
                obtain ⟨hsel, hst⟩ := h
                subst hst
                subst hsel
                have hp := List.find?_some hfind
                have hfound : found.accountId = boundId := eq_of_beq hp
                dsimp only
                rw [hfound]
                unfold isRateLimited
                unfold getRemainingWait at h0
                cases hrl : rlLookup st.limits boundId with
                | none => simp
                | some p =>
                  rw [hrl] at h0
                  dsimp only at h0 ⊢
                  simp only [decide_eq_false_iff_not, not_lt]
                  omega

theorem selectTarget_some_spec (qg : String) (rotate : Bool) (sid : Option String)
    (snapshot : List ProxyToken) (total : Nat) (attempted : List String)
    (st : TMState) (sel : Selected) (st1 : TMState)
    (h : selectTarget qg rotate sid snapshot total attempted st = (some sel, st1)) :
    st1.limits = st.limits ∧ st.now ≤ st1.now ∧
      (sel.source = .sticky60 ∨ isRateLimited st1.limits st1.now sel.tok.accountId = false) := by
  unfold selectTarget at h
  rcases hss : stickyStep rotate sid snapshot attempted st with ⟨opt0, st0⟩
  rw [hss] at h
  have hst := stickyStep_state rotate sid snapshot attempted st
  rw [hss] at hst
  obtain ⟨hL, hNow, hCur, hTok, hSticky⟩ := hst
  cases opt0 with
  | some sel0 =>
    dsimp only at h
    simp only [Prod.mk.injEq, Option.some.injEq] at h
    obtain ⟨hsel, hst1⟩ := h
    subst hsel
    subst hst1
    exact ⟨hL, hNow, Or.inr (stickyStep_some_not_limited rotate sid snapshot attempted st sel0 st0 hss)⟩
  | none =>
    dsimp only at h
    by_cases hcond : rotate = false ∧ qg ≠ "image_gen"
    · rw [if_pos hcond] at h
      cases hfl : (match st0.lastUsed with
          | some (aid, t0) =>
            if st0.now - t0 < 60 ∧ ¬ attempted.contains aid then
              snapshot.find? (fun t => t.accountId == aid)
            else none
          | none => none : Option ProxyToken) with
      | some found =>
        rw [hfl] at h
        dsimp only at h
        simp only [Prod.mk.injEq, Option.some.injEq] at h
        obtain ⟨hsel, hst1⟩ := h
        subst hsel
        subst hst1
        exact ⟨hL, hNow, Or.inl rfl⟩
      | none =>
        rw [hfl] at h
        dsimp only at h
        cases hwp : walkPick snapshot attempted st0.limits st0.now (st0.currentIndex % total) total with
        | some c =>
          rw [hwp] at h
          dsimp only at h
          have hwalk := walkPick_not_limited snapshot attempted st0.limits st0.now
            (st0.currentIndex % total) total c hwp
          simp only [Prod.mk.injEq, Option.some.injEq] at h
          obtain ⟨hsel, hst1⟩ := h
          subst hsel
          subst hst1
          exact ⟨hL, hNow, Or.inr hwalk.1⟩
        | none =>
          rw [hwp] at h
          exact absurd h (by simp)
    · rw [if_neg hcond] at h
      cases hwp : walkPick snapshot attempted st0.limits st0.now (st0.currentIndex % total) total with
      | some c =>
        rw [hwp] at h
        dsimp only at h
        have hwalk := walkPick_not_limited snapshot attempted st0.limits st0.now
          (st0.currentIndex % total) total c hwp
        simp only [Prod.mk.injEq, Option.some.injEq] at h
        obtain ⟨hsel, hst1⟩ := h
        subst hsel
        subst hst1
        exact ⟨hL, hNow, Or.inr hwalk.1⟩
      | none =>
        rw [hwp] at h
        exact absurd h (by simp)

theorem getTokenLoop_spec (o : Oracles) (qg : String) (fr : Bool) (sid : Option String)
    (snapshot : List ProxyToken) (total : Nat) :
    ∀ fuel attempt attempted lastError st tok pid src st',
      getTokenLoop o qg fr sid snapshot total fuel attempt attempted lastError st
        = (.ok (tok, pid, src), st') →
      st'.limits = st.limits ∧ st.now ≤ st'.now ∧
        (src = .sticky60 ∨ isRateLimited st'.limits st'.now tok.accountId = false) := by
  intro fuel
  induction fuel with
  | zero =>
    intro attempt attempted lastError st tok pid src st' h
    unfold getTokenLoop at h
    exact absurd h (by simp)
  | succ n ih =>
    intro attempt attempted lastError st tok pid src st' h
    unfold getTokenLoop at h
    dsimp only at h
    rcases hsel : selectTarget qg (fr || decide (0 < attempt)) sid snapshot total attempted st
      with ⟨osel, st1⟩
    rw [hsel] at h
    cases osel with
    | none =>
      dsimp only at h
      exact absurd h (by simp)
    | some sel =>
      dsimp only at h
      have hspec := selectTarget_some_spec qg (fr || decide (0 < attempt)) sid snapshot total
        attempted st sel st1 hsel
      by_cases href : (st1.now : Int) ≥ sel.tok.timestamp - 300
      · rw [if_pos href] at h
        cases horc : o.refreshTok sel.tok.refreshToken with
        | some refreshed =>
          rw [horc] at h
          dsimp only at h
          cases hpid : sel.tok.projectId with
          | some pid0 =>
            rw [hpid] at h
            simp only [Prod.mk.injEq, Except.ok.injEq] at h
            obtain ⟨⟨htok, hpid2, hsrc⟩, hst'⟩ := h
            subst htok
            subst hsrc
            subst hst'
            exact ⟨hspec.1, hspec.2.1, hspec.2.2⟩
          | none =>
            rw [hpid] at h
            dsimp only at h
            cases hfp : o.fetchProjectId refreshed.1 with
            | some pid2 =>
              rw [hfp] at h
              simp only [Prod.mk.injEq, Except.ok.injEq] at h
              obtain ⟨⟨htok, hpid2, hsrc⟩, hst'⟩ := h
              subst htok
              subst hsrc
              subst hst'
              exact ⟨hspec.1, hspec.2.1, hspec.2.2⟩
            | none =>
              rw [hfp] at h
              dsimp only at h
              have hrec := ih (attempt + 1) (sel.tok.accountId :: attempted) (some "Failed to fetch project_id") ({ st1 with tokens := updateTokens st1.tokens sel.tok.accountId refreshed.1 refreshed.2 ((st1.now : Int) + refreshed.2) }) tok pid src st' h
              exact ⟨hrec.1.trans hspec.1, le_trans hspec.2.1 hrec.2.1, hrec.2.2⟩
        | none =>
          rw [horc] at h
          dsimp only at h
          have hrec := ih (attempt + 1) (sel.tok.accountId :: attempted)
            (some "Token refresh failed") st1 tok pid src st' h
          exact ⟨hrec.1.trans hspec.1, le_trans hspec.2.1 hrec.2.1, hrec.2.2⟩
      · rw [if_neg href] at h
        cases hpid : sel.tok.projectId with
        | some pid0 =>
          rw [hpid] at h
          simp only [Prod.mk.injEq, Except.ok.injEq] at h
          obtain ⟨⟨htok, hpid2, hsrc⟩, hst'⟩ := h
          subst htok
          subst hsrc
          subst hst'
          exact ⟨hspec.1, hspec.2.1, hspec.2.2⟩
        | none =>
          rw [hpid] at h
          dsimp only at h
          cases hfp : o.fetchProjectId sel.tok.accessToken with
          | some pid2 =>
            rw [hfp] at h
            simp only [Prod.mk.injEq, Except.ok.injEq] at h
            obtain ⟨⟨htok, hpid2, hsrc⟩, hst'⟩ := h
            subst htok
            subst hsrc
            subst hst'
            exact ⟨hspec.1, hspec.2.1, hspec.2.2⟩
          | none =>
            rw [hfp] at h
            dsimp only at h
            have hrec := ih (attempt + 1) (sel.tok.accountId :: attempted)
              (some "Failed to fetch project_id") st1 tok pid src st' h
            exact ⟨hrec.1.trans hspec.1, le_trans hspec.2.1 hrec.2.1, hrec.2.2⟩

/-- Claim C3, counterexample: pool `{A}` with `A` marked rate-limited at
time 0 for 110 s (109 s of cooldown left at the call), `last_used = (A, 5s
ago)`, scheduling policy `Balance` (not `CacheFirst`), no session.  A
`get_token` call with `force_rotate = false` returns `A` through the
60-second last-used stickiness, which never consults the rate-limit
tracker — contradicting "get_token never returns id for the next D
seconds unless CacheFirst chooses to wait". -/
theorem c3_counterexample :
    isRateLimited stC3.limits stC3.now "A" = true ∧
    stC3.sticky.mode ≠ SchedulingMode.cacheFirst ∧
    stC3.limits = markLimited [] 0 "A" 110 [] ∧
    (match (getToken oNone "text" false none stC3).1 with
      | .ok r => some (r.1.accountId, r.2.2)
      | .error _ => none) = some ("A", PickSource.sticky60) := by
  refine ⟨rfl, by decide, rfl, rfl⟩

/-- Claim C3 (amended): a `get_token` call never modifies the rate-limit
map and only advances the clock (the `CacheFirst` wait sleeps exactly the
remaining cooldown of the bound account), and whenever the returned account
is still rate-limited at the moment the call completes, it was picked by the
60-second last-used stickiness (`force_rotate = false`, non-`image_gen`
group, first attempt), the one selection rule that does not consult the
tracker; every other rule — session binding, `CacheFirst` wait, and both
round-robin walks — never yields an account whose cooldown is still
running. -/
theorem c3_rate_limit_exclusion (o : Oracles) (qg : String) (fr : Bool)
    (sid : Option String) (st : TMState) (tok : ProxyToken) (pid : String)
    (src : PickSource) (st' : TMState)
    (h : getToken o qg fr sid st = (.ok (tok, pid, src), st')) :
    st'.limits = st.limits ∧ st.now ≤ st'.now ∧
      (isRateLimited st'.limits st'.now tok.accountId = true → src = .sticky60) := by
  unfold getToken at h
  by_cases h0 : st.tokens.length = 0
  · rw [if_pos h0] at h
    exact absurd h (by simp)
  · rw [if_neg h0] at h
    have hspec := getTokenLoop_spec o qg fr sid (sortByTier st.tokens) st.tokens.length
      st.tokens.length 0 [] none st tok pid src st' h
    refine ⟨hspec.1, hspec.2.1, ?_⟩
    intro hlim
    rcases hspec.2.2 with hsrc | hfalse
    · exact hsrc
    · rw [hlim] at hfalse
      cases hfalse

/-- Witness for the amended C3 at a concrete forced-rotation call. -/
theorem c3_rate_limit_exclusion_witness :
    ({ stC6 with currentIndex := 1 } : TMState).limits = stC6.limits ∧
    stC6.now ≤ ({ stC6 with currentIndex := 1 } : TMState).now ∧
    (isRateLimited ({ stC6 with currentIndex := 1 } : TMState).limits
        ({ stC6 with currentIndex := 1 } : TMState).now tokA.accountId = true →
      PickSource.plainWalk = PickSource.sticky60) :=
  c3_rate_limit_exclusion oNone "text" true none stC6 tokA "projA" .plainWalk
    { stC6 with currentIndex := 1 } (by rfl)

/-! ## Claim C6 — round-robin fairness under forced rotation -/

theorem tierPriority_le (x : Option String) : tierPriority x ≤ 3 := by
  unfold tierPriority
  split <;> omega

theorem sortByTier_perm (l : List ProxyToken) : (sortByTier l).Perm l := by
  induction l with
  | nil => simp [sortByTier]
  | cons t rest ih =>
    have hle := tierPriority_le t.subscriptionTier
    have hp : tierPriority t.subscriptionTier = 0 ∨ tierPriority t.subscriptionTier = 1 ∨
        tierPriority t.subscriptionTier = 2 ∨ tierPriority t.subscriptionTier = 3 := by omega
    unfold sortByTier at ih ⊢
    rcases hp with h | h | h | h <;>
      simp only [List.filter_cons, h, List.cons_append, List.append_assoc,
        Nat.reduceBEq, beq_self_eq_true, if_true, if_false, Bool.false_eq_true] <;>
      simp only [List.append_assoc] at ih
    · exact ih.cons t
    · exact List.perm_middle.trans (ih.cons t)
    · exact ((List.Perm.append_left _ List.perm_middle).trans List.perm_middle).trans (ih.cons t)
    · exact ((List.Perm.append_left _ ((List.Perm.append_left _ List.perm_middle).trans
        List.perm_middle)).trans List.perm_middle).trans (ih.cons t)

theorem sortByTier_length (l : List ProxyToken) : (sortByTier l).length = l.length :=
  (sortByTier_perm l).length_eq

theorem walkPick_all_pass (snapshot : List ProxyToken) (attempted : List String)
    (limits : RLState) (now : Nat) (startIdx total : Nat)
    (htot : snapshot.length = total) (hstart : startIdx < total)
    (hpass : ∀ t ∈ snapshot, attempted.contains t.accountId = false ∧
      isRateLimited limits now t.accountId = false) :
    walkPick snapshot attempted limits now startIdx total
      = some (snapshot.getD startIdx dummyToken) := by
  unfold walkPick
  cases total with
  | zero => omega
  | succ n =>
    rw [List.range_succ_eq_map, List.map_cons, List.findSome?_cons]
    have hidx : (startIdx + 0) % (n + 1) = startIdx := by
      rw [Nat.add_zero, Nat.mod_eq_of_lt hstart]
    rw [hidx]
    have hlt : startIdx < snapshot.length := by omega
    rw [List.getElem?_eq_getElem hlt]
    have hmem := List.getElem_mem hlt
    have hc := hpass (snapshot[startIdx]) hmem
    have hcond : (attempted.contains (snapshot[startIdx]).accountId
        || isRateLimited limits now (snapshot[startIdx]).accountId) = false := by
      rw [hc.1, hc.2]
      rfl
    rw [List.getD_eq_getElem snapshot dummyToken hlt]
    dsimp only
    simp only [hcond, Bool.false_eq_true, if_false]

theorem selectTarget_rotate_eval (qg : String) (sid : Option String)
    (snapshot : List ProxyToken) (total : Nat) (attempted : List String) (st : TMState) :
    selectTarget qg true sid snapshot total attempted st =
      match walkPick snapshot attempted st.limits st.now (st.currentIndex % total) total with
      | some c => (some ⟨c, .plainWalk⟩, { st with currentIndex := st.currentIndex + 1 })
      | none => (none, { st with currentIndex := st.currentIndex + 1 }) := by
  unfold selectTarget stickyStep
  dsimp only
  rw [if_neg (by simp)]

theorem getToken_rotate (o : Oracles) (qg : String) (sid : Option String) (st : TMState)
    (hN : 0 < st.tokens.length)
    (hRL : ∀ t ∈ st.tokens, isRateLimited st.limits st.now t.accountId = false)
    (hFresh : ∀ t ∈ st.tokens, (st.now : Int) < t.timestamp - 300)
    (hPid : ∀ t ∈ st.tokens, t.projectId.isSome) :
    getToken o qg true sid st =
      (.ok ((sortByTier st.tokens).getD (st.currentIndex % st.tokens.length) dummyToken,
            ((sortByTier st.tokens).getD (st.currentIndex % st.tokens.length) dummyToken).projectId.getD "",
            .plainWalk),
       { st with currentIndex := st.currentIndex + 1 }) := by
  have hmemTok : ∀ t ∈ sortByTier st.tokens, t ∈ st.tokens :=
    fun t ht => (sortByTier_perm st.tokens).mem_iff.mp ht
  have hwp := walkPick_all_pass (sortByTier st.tokens) [] st.limits st.now
    (st.currentIndex % st.tokens.length) st.tokens.length
    (sortByTier_length st.tokens) (Nat.mod_lt _ hN)
    (fun t ht => ⟨rfl, hRL t (hmemTok t ht)⟩)
  have hc : (sortByTier st.tokens).getD (st.currentIndex % st.tokens.length) dummyToken
      ∈ st.tokens := by
    apply hmemTok
    have hlt : st.currentIndex % st.tokens.length < (sortByTier st.tokens).length := by
      rw [sortByTier_length]
      exact Nat.mod_lt _ hN
    rw [List.getD_eq_getElem _ dummyToken hlt]
    exact List.getElem_mem hlt
  obtain ⟨pid0, hpid0⟩ := Option.isSome_iff_exists.mp (hPid _ hc)
  unfold getToken
  rw [if_neg (by omega)]
  obtain ⟨m, hm⟩ : ∃ m, st.tokens.length = m + 1 := ⟨st.tokens.length - 1, by omega⟩
  rw [hm]
  unfold getTokenLoop
  dsimp only
  rw [show (true || decide (0 < 0)) = true from rfl]
  rw [selectTarget_rotate_eval]
  rw [← hm, hwp]
  dsimp only
  rw [if_neg (by
    have := hFresh _ hc
    omega)]
  rw [hpid0]
  rfl

theorem runSelections_rotate (o : Oracles) (qg : String) (sid : Option String) :
    ∀ (n : Nat) (st : TMState),
      0 < st.tokens.length →
      (∀ t ∈ st.tokens, isRateLimited st.limits st.now t.accountId = false) →
      (∀ t ∈ st.tokens, (st.now : Int) < t.timestamp - 300) →
      (∀ t ∈ st.tokens, t.projectId.isSome) →
      (runSelections o qg true sid n st).1 =
        (List.range n).map (fun k =>
          some (((sortByTier st.tokens).getD
            ((st.currentIndex + k) % st.tokens.length) dummyToken).accountId)) ∧
      (runSelections o qg true sid n st).2
        = { st with currentIndex := st.currentIndex + n } := by
  intro n
  induction n with
  | zero =>
    intro st _ _ _ _
    exact ⟨rfl, rfl⟩
  | succ m ih =>
    intro st hN hRL hFresh hPid
    have hstep := getToken_rotate o qg sid st hN hRL hFresh hPid
    unfold runSelections
    rw [hstep]
    dsimp only
    have hrec := ih { st with currentIndex := st.currentIndex + 1 } hN hRL hFresh hPid
    dsimp only at hrec
    rw [hrec.1, hrec.2]
    refine ⟨?_, ?_⟩
    · rw [List.range_succ_eq_map, List.map_cons, List.map_map]
      congr 1
      apply List.map_congr_left
      intro k _
      dsimp only [Function.comp_apply]
      rw [show st.currentIndex + 1 + k = st.currentIndex + Nat.succ k from by omega]
    · simp only [TMState.mk.injEq, true_and, and_true]
      omega

theorem map_getD_range {α : Type} (l : List α) (d : α) :
    (List.range l.length).map (fun i => l.getD i d) = l := by
  induction l with
  | nil => rfl
  | cons a t ih =>
    rw [show (a :: t).length = t.length + 1 from rfl, List.range_succ_eq_map,
      List.map_cons, List.map_map]
    have hpt : ∀ i ∈ List.range t.length,
        ((fun i => (a :: t).getD i d) ∘ Nat.succ) i = t.getD i d := by
      intro i _
      dsimp only [Function.comp_apply]
      exact List.getD_cons_succ
    rw [List.map_congr_left hpt, ih]
    rfl

theorem map_add_mod_range_perm (N c : Nat) (h0 : 0 < N) :
    ((List.range N).map (fun k => (c + k) % N)).Perm (List.range N) := by
  have heq : (List.range N).map (fun k => (c + k) % N) = (List.range N).rotate (c % N) := by
    apply List.ext_getElem
    · simp
    · intro i h1 h2
      rw [List.getElem_map, List.getElem_range, List.getElem_rotate, List.getElem_range]
      simp only [List.length_range]
      have hcN : c % N % N = c % N := Nat.mod_eq_of_lt (Nat.mod_lt c h0)
      conv_rhs => rw [Nat.add_mod, hcN, ← Nat.add_mod, Nat.add_comm]
  rw [heq]
  exact List.rotate_perm _ _

theorem map_getD_mod_perm {α : Type} (l : List α) (c : Nat) (d : α) (h0 : 0 < l.length) :
    ((List.range l.length).map (fun k => l.getD ((c + k) % l.length) d)).Perm l := by
  have h1 : (List.range l.length).map (fun k => l.getD ((c + k) % l.length) d)
      = ((List.range l.length).map (fun k => (c + k) % l.length)).map (fun i => l.getD i d) := by
    rw [List.map_map]
    rfl
  rw [h1]
  have h2 := (map_add_mod_range_perm l.length c h0).map (fun i => l.getD i d)
  rw [map_getD_range] at h2
  exact h2

/-- Claim C6: with every pool account healthy (no cooldown, token not
expiring, project id resolved) and rotation forced on every call, `N`
consecutive `get_token` selections (for a pool of `N` accounts) visit each
account exactly once — the selected ids are a permutation of the pool —
and concretely, with pool `[A, B]`, six forced-rotation selections visit
`A,B,A,B,A,B`. -/
theorem c6_round_robin_fairness (o : Oracles) (qg : String) (sid : Option String)
    (st : TMState) (hN : 0 < st.tokens.length)
    (hRL : ∀ t ∈ st.tokens, isRateLimited st.limits st.now t.accountId = false)
    (hFresh : ∀ t ∈ st.tokens, (st.now : Int) < t.timestamp - 300)
    (hPid : ∀ t ∈ st.tokens, t.projectId.isSome) :
    ((runSelections o qg true sid st.tokens.length st).1).Perm
        (st.tokens.map (fun t => some t.accountId))
    ∧ (runSelections oNone "text" true none 6 stC6).1 =
        [some "A", some "B", some "A", some "B", some "A", some "B"] := by
  constructor
  · have hrun := runSelections_rotate o qg sid st.tokens.length st hN hRL hFresh hPid
    rw [hrun.1]
    have hrw : (List.range st.tokens.length).map (fun k =>
        some (((sortByTier st.tokens).getD
          ((st.currentIndex + k) % st.tokens.length) dummyToken).accountId))
      = ((List.range st.tokens.length).map (fun k =>
          (sortByTier st.tokens).getD
            ((st.currentIndex + k) % st.tokens.length) dummyToken)).map
          (fun t => some t.accountId) := by
      rw [List.map_map]
      rfl
    rw [hrw]
    apply List.Perm.map
    have hperm := map_getD_mod_perm (sortByTier st.tokens) st.currentIndex dummyToken
      (by rw [sortByTier_length]; exact hN)
    rw [sortByTier_length] at hperm
    exact hperm.trans (sortByTier_perm st.tokens)
  · rfl

/-- Witness for C6 with the two-account pool `[A, B]`. -/
theorem c6_round_robin_fairness_witness :
    ((runSelections oNone "text" true none stC6.tokens.length stC6).1).Perm
        (stC6.tokens.map (fun t => some t.accountId))
    ∧ (runSelections oNone "text" true none 6 stC6).1 =
        [some "A", some "B", some "A", some "B", some "A", some "B"] :=
  c6_round_robin_fairness oNone "text" none stC6 (by decide) (by decide)
    (by decide) (by decide)

end AGProxy
